import Mathlib

/-!
Verification of the batch translation pipeline of the csv-translator
repository, a shallow embedding of
`src/csv-translator/src/app/api/translate/route.ts` (the recovery-enabled
route variant, with its older concurrent variant embedded where a claim
refers to it) and of `src/csv-translator/src/lib/azure.ts`.

Modelling conventions:
* The remote call `azureTranslator.translateText` is an oracle
  `Nat → String → String → String → Except AzureError String`, indexed by a
  global call counter so that a stub may behave differently per call; the
  call log is threaded explicitly through every function as a `TransState`.
* JavaScript `try`/`catch` around code that cannot throw in the model is
  noted in doc comments; the two catch blocks that the spec describes as
  row-level and batch-level degrade paths are made reachable through
  explicit fault injection (`Faults`), standing for the "unexpected
  exception" the source catches.
* Waiting (`setTimeout` backoff, pacing delays) has no effect on values and
  is dropped.
* The event stream pushed through `sendEvent` is collected into a list, in
  emission order.
-/

namespace CsvTranslator

/-- A CSV row: an ordered list of cell strings. -/
abbrev Row := List String

/-- `CSV_CONFIG.DEFAULT_BATCH_SIZE` from the `src/constants` module the
route imports (unnamed part_002, the current revision: "Further reduced
for stability"; the stale `my-next-app` copy has 100 and part_001 has
50). -/
def DEFAULT_BATCH_SIZE : Nat := 25

/-- `CSV_CONFIG.MAX_BATCH_SIZE` from the `src/constants` module the route
imports (unnamed part_002: "No practical limit on batch size"; the stale
`my-next-app` copy has 1000 and part_001 has 200). -/
def MAX_BATCH_SIZE : Nat := 100000

/-- `CSV_CONFIG.MIN_BATCH_SIZE` from the `src/constants` module the route
imports (unnamed part_002; identical in every revision). -/
def MIN_BATCH_SIZE : Nat := 1

/-- `batchCharacterLimit` default of `AzureTranslator` (azure.ts line 107). -/
def batchCharacterLimit : Nat := 50000

/-- Typed errors of the Azure client (`src/lib/azure.ts`):
`AuthenticationError` (401), `QuotaExceededError` (403), `RateLimitError`
(429), bad request (400), not found (404), `NetworkError`, and the generic
`AzureTranslatorError` with an unknown status. -/
inductive AzureError where
  | authenticationFailed
  | quotaExceeded
  | rateLimited (retryAfter : Option Nat)
  | badRequest (msg : String)
  | notFound
  | networkError (msg : String)
  | unknownError (status : Nat)
  deriving DecidableEq, Repr

/-- `AzureTranslator.parseErrorResponse` (azure.ts lines 152-191): maps the
HTTP status of a failed response to a typed error. The response body only
feeds the message text, abstracted as `msg`; the parsed `retry-after`
header (already scaled to milliseconds) is `retryAfter`. -/
def parseErrorResponse (status : Nat) (retryAfter : Option Nat) (msg : String) : AzureError :=
  if status = 401 then AzureError.authenticationFailed
  else if status = 403 then AzureError.quotaExceeded
  else if status = 429 then AzureError.rateLimited retryAfter
  else if status = 400 then AzureError.badRequest msg
  else if status = 404 then AzureError.notFound
  else AzureError.unknownError status

/-- `AzureTranslator.isRetryableError` on a `Response` value
(azure.ts lines 135-139): server errors and rate limits are retryable. -/
def isRetryableStatus (status : Nat) : Bool :=
  500 ≤ status || status == 429

/-- The non-retryable error classes named by the spec: authentication
failure, quota exceeded, malformed request. -/
def isNonRetryableError : AzureError → Bool
  | AzureError.authenticationFailed => true
  | AzureError.quotaExceeded => true
  | AzureError.badRequest _ => true
  | _ => false

/-- One recorded invocation of the remote translator, in the argument order
of `azureTranslator.translateText(text, toLang, fromLang)`. -/
structure TransCall where
  text : String
  toLang : String
  fromLang : String
  deriving DecidableEq, Repr

/-- Behaviour of `azureTranslator.translateText`: the n-th call (0-indexed
global call counter), on the given text and language pair, either returns a
translated string or throws a typed error. -/
def Oracle : Type := Nat → String → String → String → Except AzureError String

/-- The call log threaded through the pipeline. -/
structure TransState where
  calls : List TransCall
  deriving DecidableEq, Repr

/-- Fresh state at the start of a run. -/
def initState : TransState := { calls := [] }

/-- Perform one `azureTranslator.translateText` call and record it. -/
def callTranslator (o : Oracle) (s : TransState) (text toLang fromLang : String) :
    Except AzureError String × TransState :=
  (o s.calls.length text toLang fromLang,
    { calls := s.calls ++ [{ text := text, toLang := toLang, fromLang := fromLang }] })

/-- JS `!text || text.trim() === ''` (empty or whitespace-only): the text
trims to the empty string exactly when every character is whitespace, and
that characterization is used directly because `String.trim` is not
kernel-computable. (JS also trims a few exotic Unicode spaces such as
`\u00a0`; the common whitespace set — space, tab, newline, carriage
return — is modelled.) -/
def isBlank (s : String) : Bool := s.data.all Char.isWhitespace

/-- The `for (let attempt = 1; attempt <= maxRetries; attempt++)` loop of
`translateTextWithRetry` (route.ts lines 204-232), counting attempts left
(`attemptsLeft = maxRetries - attempt + 1`). Every thrown error is caught;
on the final attempt (`attempt === maxRetries`, i.e. `attemptsLeft = 1`)
the original text is returned. The backoff and rate-limit delays
(lines 207-210 and 222-230) only wait and are dropped. -/
def retryLoop (o : Oracle) (text fromLang toLang : String) :
    Nat → TransState → String × TransState
  | 0, s => (text, s)
  | attemptsLeft + 1, s =>
    let r := callTranslator o s text toLang fromLang
    match r.1 with
    | Except.ok t => (t, r.2)
    | Except.error _ =>
      if attemptsLeft = 0 then (text, r.2)
      else retryLoop o text fromLang toLang attemptsLeft r.2

/-- `translateTextWithRetry` (route.ts lines 196-235): blank text
short-circuits, otherwise up to `maxRetries` attempts, falling back to the
original text. It never throws. -/
def translateTextWithRetry (o : Oracle) (text fromLang toLang : String)
    (maxRetries : Nat) (s : TransState) : String × TransState :=
  if isBlank text then (text, s)
  else retryLoop o text fromLang toLang maxRetries s

/-- JS truthiness of an optional string field: present and nonempty. -/
def optStrTruthy : Option String → Bool
  | none => false
  | some s => s != ""

/-- `ColumnMapping` from `src/types` (unnamed part_003). -/
structure ColumnMapping where
  columnIndex : Nat
  columnName : String
  shouldTranslate : Bool
  targetLanguage : Option String
  deriving DecidableEq, Repr

/-- The fields of `CSVTranslationConfig` (unnamed part_003) the pipeline
reads; `sourceFile`, `targetLanguages` and `preserveFormatting` are never
consulted by the route and are omitted. -/
structure CSVTranslationConfig where
  columnMappings : List ColumnMapping
  sourceLanguage : String
  batchSize : Nat
  deriving DecidableEq, Repr

/-- The per-column loop of `processBatchWithRecovery` (route.ts lines
129-160): builds `translatedRow` cell by cell; `colIndex` is the current
column index. A cell is translated when a mapping found for its index has
`shouldTranslate` and a truthy `targetLanguage`; a blank cell is pushed
unchanged without any call; otherwise `translateTextWithRetry` is invoked
with a retry budget of 2 (line 147). The `catch` at lines 151-155 is
unreachable because `translateTextWithRetry` never throws. -/
def processCells (o : Oracle) (config : CSVTranslationConfig) :
    List String → Nat → TransState → List String × TransState
  | [], _, s => ([], s)
  | cell :: rest, colIndex, s =>
    match config.columnMappings.find? (fun m => m.columnIndex == colIndex) with
    | some m =>
      if m.shouldTranslate && optStrTruthy m.targetLanguage then
        if isBlank cell then
          let r := processCells o config rest (colIndex + 1) s
          (cell :: r.1, r.2)
        else
          let t := translateTextWithRetry o cell config.sourceLanguage
            (m.targetLanguage.getD "") 2 s
          let r := processCells o config rest (colIndex + 1) t.2
          (t.1 :: r.1, r.2)
      else
        let r := processCells o config rest (colIndex + 1) s
        (cell :: r.1, r.2)
    | none =>
      let r := processCells o config rest (colIndex + 1) s
      (cell :: r.1, r.2)

/-- The `type` discriminator of `TranslationProgress` (route.ts line 39). -/
inductive EventType where
  | progress
  | error
  | complete
  | data
  deriving DecidableEq, Repr

/-- `TranslationProgress` (route.ts lines 38-47). The `data` field carries
the final row matrix handed to the external CSV serializer (`stringify` is
the external codec and is not reimplemented). -/
structure TranslationProgress where
  type : EventType
  totalRows : Option Nat := none
  processedRows : Option Nat := none
  currentBatch : Option Nat := none
  totalBatches : Option Nat := none
  message : Option String := none
  data : Option (List Row) := none
  error : Option String := none
  deriving DecidableEq, Repr

/-- A progress event carrying only a message. -/
def progressMsg (m : String) : TranslationProgress :=
  { type := EventType.progress, message := some m }

/-- A progress event carrying message and all counters. -/
def progressFull (m : String) (tr pr cb tb : Nat) : TranslationProgress :=
  { type := EventType.progress, message := some m, totalRows := some tr,
    processedRows := some pr, currentBatch := some cb, totalBatches := some tb }

/-- A terminal event? (`complete` or `error`). -/
def isTerminalEvent (e : TranslationProgress) : Bool :=
  match e.type with
  | EventType.complete => true
  | EventType.error => true
  | _ => false

/-- An `error`-typed event. -/
def isErrorEvent (e : TranslationProgress) : Bool :=
  match e.type with
  | EventType.error => true
  | _ => false

/-- A `complete`-typed event. -/
def isCompleteEvent (e : TranslationProgress) : Bool :=
  match e.type with
  | EventType.complete => true
  | _ => false

/-- Fault injection for the two `catch` blocks of the pipeline:
`rowFault i` decides whether an unexpected exception occurs while
processing the row with global index `i` (caught at route.ts lines
169-174, which substitutes the original row and counts it as failed);
`batchFault n` decides whether the `processBatchWithRecovery` call for
batch number `n` throws as a whole (caught at route.ts lines 377-396,
which substitutes the original rows of the batch). With both constantly
`false` the run is fault-free. -/
structure Faults where
  rowFault : Nat → Bool
  batchFault : Nat → Bool

/-- The fault-free run. -/
def noFaults : Faults := { rowFault := fun _ => false, batchFault := fun _ => false }

/-- Result of one batch: the translated rows, the failed-row count, the
events emitted while processing, and the final call log. -/
structure BatchResult where
  rows : List Row
  failedRows : Nat
  events : List TranslationProgress
  state : TransState
  deriving Repr

/-- The row loop of `processBatchWithRecovery` (route.ts lines 120-183):
each row is processed through the column loop inside a `try`; on an
injected row fault the original row is pushed and `failedRows` is
incremented; every 10 rows a progress message is emitted. -/
def processRowsLoop (o : Oracle) (f : Faults) (config : CSVTranslationConfig) :
    List Row → Nat → Nat → TransState → BatchResult
  | [], _, _, s => { rows := [], failedRows := 0, events := [], state := s }
  | row :: rest, batchStartIndex, rowIndex, s =>
    let actualRowIndex := batchStartIndex + rowIndex
    let step : Row × Nat × TransState :=
      if f.rowFault actualRowIndex then (row, 1, s)
      else
        let r := processCells o config row 0 s
        (r.1, 0, r.2)
    let evHere : List TranslationProgress :=
      if (rowIndex + 1) % 10 == 0 then
        [progressMsg ("Processing row " ++ toString (actualRowIndex + 1) ++ "...")]
      else []
    let restRes := processRowsLoop o f config rest batchStartIndex (rowIndex + 1) step.2.2
    { rows := step.1 :: restRes.rows, failedRows := step.2.1 + restRes.failedRows,
      events := evHere ++ restRes.events, state := restRes.state }

/-- `processBatchWithRecovery` (route.ts lines 110-193): the row loop,
followed by the failed-row warning when `failedRows > 0`. -/
def processBatchWithRecovery (o : Oracle) (f : Faults) (batch : List Row)
    (batchStartIndex : Nat) (config : CSVTranslationConfig) (s : TransState) : BatchResult :=
  let r := processRowsLoop o f config batch batchStartIndex 0 s
  if r.failedRows > 0 then
    { r with events := r.events ++
        [progressMsg ("⚠️ " ++ toString r.failedRows ++
          " rows failed in this batch, using original text")] }
  else r

/-- Route.ts line 321 (recovery variant): `config.batchSize ||
CSV_CONFIG.DEFAULT_BATCH_SIZE`. JS falsiness: a zero batch size is
replaced by the default, any other value is used as-is — this variant
performs no clamping ("use the provided batch size directly"). -/
def effectiveBatchSize (config : CSVTranslationConfig) : Nat :=
  if config.batchSize = 0 then DEFAULT_BATCH_SIZE else config.batchSize

/-- Route.ts lines 644-647 (older concurrent variant):
`Math.min(Math.max(config.batchSize || DEFAULT, MIN), MAX)`. -/
def effectiveBatchSizeClamped (config : CSVTranslationConfig) : Nat :=
  min (max (if config.batchSize = 0 then DEFAULT_BATCH_SIZE else config.batchSize)
    MIN_BATCH_SIZE) MAX_BATCH_SIZE

/-- `Math.ceil(totalRows / batchSize)` for a positive natural batch size. -/
def ceilDiv (n b : Nat) : Nat := (n + b - 1) / b

/-- Aggregate result of the batch loop. -/
structure LoopResult where
  rows : List Row
  failedBatches : List Nat
  processedRows : Nat
  events : List TranslationProgress
  state : TransState
  deriving Repr

/-- The batch loop of `processTranslationRequest` (route.ts lines 331-397):
`for (let i = 0; i < totalRows; i += batchSize)`. `fuel` bounds the number
of iterations; `runPipeline` passes `totalRows + 1`, which suffices
whenever the batch size is positive. Each iteration slices
`csvRows.slice(i, i + b)`, emits the two batch progress events, then
either runs `processBatchWithRecovery`, or — on an injected batch fault —
falls back to the original rows of the batch, records the batch number in
`failedBatches` and emits the batch-failure message; either way the
resulting rows are appended, `processedRows` grows by the batch length,
the completion progress event is emitted and `i` advances by `b` (the
inter-batch 1000 ms pacing delay at lines 336-339 only waits). -/
def batchLoop (o : Oracle) (f : Faults) (config : CSVTranslationConfig)
    (csvRows : List Row) (totalRows totalBatches b : Nat) :
    Nat → Nat → Nat → Nat → TransState → LoopResult
  | 0, _, _, processedRows, s =>
    { rows := [], failedBatches := [], processedRows := processedRows,
      events := [], state := s }
  | fuel + 1, i, currentBatch, processedRows, s =>
    if i < totalRows then
      let batch := (csvRows.drop i).take b
      let cb := currentBatch + 1
      let ev1 := progressFull
        ("Processing batch " ++ toString cb ++ " of " ++ toString totalBatches)
        totalRows processedRows cb totalBatches
      let ev2 := progressFull
        ("🔄 Starting batch " ++ toString cb ++ "/" ++ toString totalBatches ++
          " (" ++ toString batch.length ++ " rows)...")
        totalRows processedRows cb totalBatches
      if f.batchFault cb then
        let pr := processedRows + batch.length
        let ev3 := progressFull
          ("⚠️ Batch " ++ toString cb ++ " failed, using original text")
          totalRows pr cb totalBatches
        let res := batchLoop o f config csvRows totalRows totalBatches b fuel (i + b) cb pr s
        { rows := batch ++ res.rows, failedBatches := cb :: res.failedBatches,
          processedRows := res.processedRows,
          events := ev1 :: ev2 :: ev3 :: res.events, state := res.state }
      else
        let br := processBatchWithRecovery o f batch i config s
        let pr := processedRows + batch.length
        let ev3 := progressFull
          ("✅ Completed batch " ++ toString cb ++ " of " ++ toString totalBatches ++
            " (" ++ toString batch.length ++ " rows)")
          totalRows pr cb totalBatches
        let res := batchLoop o f config csvRows totalRows totalBatches b fuel (i + b) cb pr br.state
        { rows := br.rows ++ res.rows, failedBatches := res.failedBatches,
          processedRows := res.processedRows,
          events := ev1 :: ev2 :: br.events ++ ev3 :: res.events, state := res.state }
    else
      { rows := [], failedBatches := [], processedRows := processedRows,
        events := [], state := s }

/-- Result of a successful run: the translated row matrix, the full event
sequence and the final call log. -/
structure RunResult where
  rows : List Row
  events : List TranslationProgress
  state : TransState
  deriving Repr

/-- The event sequence of a successful run (route.ts lines 313-428): the
"Parsed CSV file" progress event, the batch-loop events, the failed-batch
summary when any batch failed, the "Generating final CSV output..."
progress event, and the single `complete` event whose `data` is the final
matrix `headers :: rows` (serialized by the external `stringify` codec at
lines 416-419). -/
def runEvents (headers : List String) (totalRows : Nat) (lr : LoopResult) :
    List TranslationProgress :=
  let ev0 : TranslationProgress :=
    { type := EventType.progress,
      message := some ("Parsed CSV file: " ++ toString totalRows ++ " rows, " ++
        toString headers.length ++ " columns"),
      totalRows := some totalRows, processedRows := some 0 }
  let evFailed : List TranslationProgress :=
    if lr.failedBatches.length > 0 then
      [progressMsg ("⚠️ " ++ toString lr.failedBatches.length ++ " batches failed: " ++
        String.intercalate ", " (lr.failedBatches.map toString) ++
        ". Original text used for failed batches.")]
    else []
  let evGen : TranslationProgress :=
    { type := EventType.progress, message := some "Generating final CSV output...",
      totalRows := some totalRows, processedRows := some lr.processedRows }
  let evComplete : TranslationProgress :=
    { type := EventType.complete, message := some "Translation completed successfully",
      totalRows := some totalRows, processedRows := some lr.processedRows,
      data := some (headers :: lr.rows) }
  ev0 :: lr.events ++ evFailed ++ [evGen, evComplete]

/-- `processTranslationRequest` after the external form-data / file-size /
CSV-parsing phase (route.ts lines 313-428, recovery variant): computes the
effective batch size and total batch count, runs the batch loop over all
rows, and produces the final row matrix together with the event sequence of
the run. -/
def runPipeline (o : Oracle) (f : Faults) (headers : List String)
    (csvRows : List Row) (config : CSVTranslationConfig) : RunResult :=
  let totalRows := csvRows.length
  let b := effectiveBatchSize config
  let totalBatches := ceilDiv totalRows b
  let lr := batchLoop o f config csvRows totalRows totalBatches b (totalRows + 1) 0 0 0 initState
  { rows := lr.rows,
    events := runEvents headers totalRows lr,
    state := lr.state }

/-- `processTranslationRequest` (route.ts lines 237-437). The form-data,
file-size and CSV-parsing phase is external input here: `parsed` is either
the message of an error thrown before the pipeline starts — the outer
`catch` at lines 430-436 then emits the single terminal `error` event — or
the parsed headers and data rows. -/
def processTranslationRequest (parsed : Except String (List String × List Row))
    (o : Oracle) (f : Faults) (config : CSVTranslationConfig) : List TranslationProgress :=
  match parsed with
  | Except.error msg => [{ type := EventType.error, error := some msg }]
  | Except.ok hr => (runPipeline o f hr.1 hr.2 config).events

/-- The batching skeleton of the loop at route.ts lines 331-332, isolated
from translation: `for (let i = 0; i < totalRows; i += b)` collecting
`csvRows.slice(i, i + b)`. `fuel` bounds the iteration count; `none` means
the loop did not finish within `fuel` iterations (with `b = 0` and a
nonempty input the source loop never advances `i` and never terminates). -/
def sliceLoop (csvRows : List Row) (b : Nat) : Nat → Nat → Option (List (List Row))
  | i, 0 => if i < csvRows.length then none else some []
  | i, fuel + 1 =>
    if i < csvRows.length then
      match sliceLoop csvRows b (i + b) fuel with
      | none => none
      | some rest => some (((csvRows.drop i).take b) :: rest)
    else some []

/-- Reference form of the partition produced by the batch loop: successive
slices of `b` rows (empty for `b = 0`, a case the source loop never
completes on). Used to state and prove facts about `sliceLoop`. -/
def partitionRows (rows : List Row) (b : Nat) : List (List Row) :=
  if h : rows = [] ∨ b = 0 then []
  else rows.take b :: partitionRows (rows.drop b) b
termination_by rows.length
decreasing_by
  push_neg at h
  have h1 : 0 < rows.length := List.length_pos.mpr h.1
  have h2 : 0 < b := Nat.pos_of_ne_zero h.2
  simp only [List.length_drop]
  omega

/-- Total character count of a batch of texts. -/
def sumLens (batch : List String) : Nat := (batch.map String.length).sum

/-- The loop of `AzureTranslator.createBatches` (azure.ts lines 361-397):
split `texts` into batches bounded by `limit` characters. A text longer
than `limit` flushes the current batch and goes alone into its own batch;
otherwise, if adding the text would exceed the limit and the current batch
is nonempty, the current batch is flushed first; the text is then appended
to the current batch. (`String.length` counts characters where JS counts
UTF-16 code units; the two agree outside astral code points.) -/
def createBatchesLoop (limit : Nat) :
    List String → List String → Nat → List (List String)
  | [], currentBatch, _ =>
    if currentBatch.length > 0 then [currentBatch] else []
  | text :: rest, currentBatch, currentCharacterCount =>
    let textLength := text.length
    if limit < textLength then
      if currentBatch.length > 0 then
        currentBatch :: [text] :: createBatchesLoop limit rest [] 0
      else
        [text] :: createBatchesLoop limit rest [] 0
    else if limit < currentCharacterCount + textLength ∧ currentBatch.length > 0 then
      currentBatch :: createBatchesLoop limit rest [text] textLength
    else
      createBatchesLoop limit rest (currentBatch ++ [text])
        (currentCharacterCount + textLength)

/-- `AzureTranslator.createBatches` (azure.ts lines 361-397), entered with
an empty current batch and a zero character count. -/
def createBatches (limit : Nat) (texts : List String) : List (List String) :=
  createBatchesLoop limit texts [] 0

/-! ### Partition lemmas (claims C4, C10) -/

theorem partitionRows_nil (b : Nat) : partitionRows [] b = [] := by
  rw [partitionRows]
  simp

theorem partitionRows_cons (rows : List Row) (b : Nat) (hr : rows ≠ []) (hb : 1 ≤ b) :
    partitionRows rows b = rows.take b :: partitionRows (rows.drop b) b := by
  rw [partitionRows]
  have : ¬(rows = [] ∨ b = 0) := by
    push_neg
    exact ⟨hr, by omega⟩
  simp [this]

theorem partitionRows_join (b : Nat) (hb : 1 ≤ b) :
    ∀ (n : Nat) (rows : List Row), rows.length ≤ n → (partitionRows rows b).flatten = rows := by
  intro n
  induction n with
  | zero =>
    intro rows h
    have hr : rows = [] := List.length_eq_zero.mp (Nat.le_zero.mp h)
    simp [hr, partitionRows_nil]
  | succ n ih =>
    intro rows h
    by_cases hr : rows = []
    · simp [hr, partitionRows_nil]
    · have hpos : 0 < rows.length := List.length_pos.mpr hr
      have hlen : (rows.drop b).length ≤ n := by
        simp only [List.length_drop]
        omega
      rw [partitionRows_cons rows b hr hb, List.flatten_cons, ih _ hlen,
        List.take_append_drop]

theorem partitionRows_length (b : Nat) (hb : 1 ≤ b) :
    ∀ (n : Nat) (rows : List Row), rows.length ≤ n →
      (partitionRows rows b).length = ceilDiv rows.length b := by
  intro n
  induction n with
  | zero =>
    intro rows h
    have hr : rows = [] := List.length_eq_zero.mp (Nat.le_zero.mp h)
    simp only [hr, partitionRows_nil, List.length_nil, ceilDiv]
    exact (Nat.div_eq_of_lt (by omega)).symm
  | succ n ih =>
    intro rows h
    by_cases hr : rows = []
    · simp only [hr, partitionRows_nil, List.length_nil, ceilDiv]
      exact (Nat.div_eq_of_lt (by omega)).symm
    · have hpos : 0 < rows.length := List.length_pos.mpr hr
      have hlen : (rows.drop b).length ≤ n := by
        simp only [List.length_drop]
        omega
      rw [partitionRows_cons rows b hr hb, List.length_cons, ih _ hlen]
      simp only [List.length_drop, ceilDiv]
      have h3 : rows.length + b - 1 = (rows.length - 1) + b := by omega
      rw [h3, Nat.add_div_right _ (by omega)]
      rcases Nat.lt_or_ge rows.length b with hlt | hge
      · have e1 : rows.length - b + b - 1 = b - 1 := by omega
        rw [e1, Nat.div_eq_of_lt (by omega), Nat.div_eq_of_lt (by omega)]
      · have e1 : rows.length - b + b - 1 = rows.length - 1 := by omega
        rw [e1]

theorem partitionRows_get? (b : Nat) (hb : 1 ≤ b) :
    ∀ (n : Nat) (rows : List Row), rows.length ≤ n →
      ∀ (i : Nat), i < (partitionRows rows b).length →
        (partitionRows rows b).get? i = some ((rows.drop (i * b)).take b) := by
  intro n
  induction n with
  | zero =>
    intro rows h i hi
    have hr : rows = [] := List.length_eq_zero.mp (Nat.le_zero.mp h)
    rw [hr, partitionRows_nil] at hi
    exact absurd hi (by simp)
  | succ n ih =>
    intro rows h i hi
    by_cases hr : rows = []
    · rw [hr, partitionRows_nil] at hi
      exact absurd hi (by simp)
    · have hpos : 0 < rows.length := List.length_pos.mpr hr
      have hlen : (rows.drop b).length ≤ n := by
        simp only [List.length_drop]
        omega
      rw [partitionRows_cons rows b hr hb] at hi ⊢
      cases i with
      | zero =>
        simp
      | succ i =>
        rw [List.get?_cons_succ]
        have hi2 : i < (partitionRows (rows.drop b) b).length := by
          simp only [List.length_cons] at hi
          omega
        rw [ih _ hlen i hi2, List.drop_drop]
        have e2 : b + i * b = (i + 1) * b := by ring
        rw [e2]

theorem sliceLoop_eq_partition (b : Nat) (hb : 1 ≤ b) :
    ∀ (fuel : Nat) (csvRows : List Row) (i : Nat), csvRows.length - i < fuel →
      sliceLoop csvRows b i fuel = some (partitionRows (csvRows.drop i) b) := by
  intro fuel
  induction fuel with
  | zero =>
    intro csvRows i h
    omega
  | succ fuel ih =>
    intro csvRows i h
    by_cases hi : i < csvRows.length
    · have hrec := ih csvRows (i + b) (by omega)
      have hne : csvRows.drop i ≠ [] := by
        intro hcon
        rw [List.drop_eq_nil_iff] at hcon
        omega
      rw [sliceLoop, if_pos hi, hrec,
        partitionRows_cons _ b hne hb, List.drop_drop]
    · rw [sliceLoop, if_neg hi, List.drop_eq_nil_of_le (by omega), partitionRows_nil]

/-- C4: for every row sequence of length `n ≥ 0` and every batch size
`b ≥ 1`, the batch loop's slicing produces `ceil(n/b)` batches; batch `i`
(0-indexed) is exactly the slice of rows with global indices
`[i*b, min((i+1)*b, n))`; concatenating the batches in order reconstructs
the input; and `n = 0` yields zero batches. -/
theorem c4_partition_correctness (rows : List Row) (b : Nat) (hb : 1 ≤ b) :
    ∃ bs, sliceLoop rows b 0 (rows.length + 1) = some bs ∧
      bs.length = ceilDiv rows.length b ∧
      (∀ i, i < bs.length → bs.get? i = some ((rows.drop (i * b)).take b)) ∧
      bs.flatten = rows ∧
      (rows = [] → bs = []) := by
  refine ⟨partitionRows rows b, ?_, ?_, ?_, ?_, ?_⟩
  · have := sliceLoop_eq_partition b hb (rows.length + 1) rows 0 (by omega)
    rwa [List.drop_zero] at this
  · exact partitionRows_length b hb rows.length rows le_rfl
  · exact partitionRows_get? b hb rows.length rows le_rfl
  · exact partitionRows_join b hb rows.length rows le_rfl
  · intro hr
    rw [hr, partitionRows_nil]

/-- C4 witness: the theorem applied to 5 concrete rows and batch size 2. -/
theorem c4_partition_correctness_witness :
    (1 : Nat) ≤ 2 ∧
      ∃ bs, sliceLoop [["a"], ["b"], ["c"], ["d"], ["e"]] 2 0 6 = some bs ∧
        bs.length = ceilDiv 5 2 ∧
        (∀ i, i < bs.length →
          bs.get? i = some (([["a"], ["b"], ["c"], ["d"], ["e"]].drop (i * 2)).take 2)) ∧
        bs.flatten = [["a"], ["b"], ["c"], ["d"], ["e"]] ∧
        ([["a"], ["b"], ["c"], ["d"], ["e"]] = ([] : List Row) → bs = []) :=
  ⟨by decide, c4_partition_correctness [["a"], ["b"], ["c"], ["d"], ["e"]] 2 (by decide)⟩

/-- C10: under the hypothesis that the effective batch size is positive,
the orchestrator's batch loop terminates for every `totalRows ≥ 0` within
any fuel exceeding the row count, and executes exactly
`ceil(totalRows / b)` iterations (one batch per iteration). -/
theorem c10_loop_termination (rows : List Row) (b : Nat) (hb : 1 ≤ b)
    (fuel : Nat) (hf : rows.length < fuel) :
    ∃ bs, sliceLoop rows b 0 fuel = some bs ∧ bs.length = ceilDiv rows.length b := by
  refine ⟨partitionRows rows b, ?_, partitionRows_length b hb rows.length rows le_rfl⟩
  have := sliceLoop_eq_partition b hb fuel rows 0 (by omega)
  rwa [List.drop_zero] at this

/-- C10 witness: the theorem applied to 3 concrete rows, batch size 2 and
fuel 9. -/
theorem c10_loop_termination_witness :
    (1 : Nat) ≤ 2 ∧ (3 : Nat) < 9 ∧
      ∃ bs, sliceLoop [["a"], ["b"], ["c"]] 2 0 9 = some bs ∧ bs.length = ceilDiv 3 2 :=
  ⟨by decide, by decide,
    c10_loop_termination [["a"], ["b"], ["c"]] 2 (by decide) 9 (by decide)⟩

/-! ### Shape and pass-through lemmas (claims C1, C6) -/

/-- Column `j` is not designated for translation: no mapping for index `j`
passes the `shouldTranslate && targetLanguage` test of route.ts line 134. -/
def passThroughColumn (config : CSVTranslationConfig) (j : Nat) : Prop :=
  ∀ m ∈ config.columnMappings, m.columnIndex = j →
    (m.shouldTranslate && optStrTruthy m.targetLanguage) = false

/-- Relation between an input row and its processed output row: equal
length, and equal cells at every pass-through column. -/
def rowShapeAndPass (config : CSVTranslationConfig) (rIn rOut : Row) : Prop :=
  rOut.length = rIn.length ∧
  ∀ j, passThroughColumn config j → rOut.get? j = rIn.get? j

theorem rowShapeAndPass_refl (config : CSVTranslationConfig) (r : Row) :
    rowShapeAndPass config r r :=
  ⟨rfl, fun _ _ => rfl⟩

theorem effectiveBatchSize_pos (config : CSVTranslationConfig) :
    1 ≤ effectiveBatchSize config := by
  unfold effectiveBatchSize DEFAULT_BATCH_SIZE
  split <;> omega

theorem processCells_length (o : Oracle) (config : CSVTranslationConfig) :
    ∀ (cells : List String) (colIndex : Nat) (s : TransState),
      (processCells o config cells colIndex s).1.length = cells.length := by
  intro cells
  induction cells with
  | nil =>
    intro colIndex s
    simp [processCells]
  | cons cell rest ih =>
    intro colIndex s
    rw [processCells]
    cases hf : config.columnMappings.find? (fun m => m.columnIndex == colIndex) with
    | none => simp [ih]
    | some m =>
      by_cases hc : m.shouldTranslate && optStrTruthy m.targetLanguage
      · by_cases hbl : isBlank cell
        · simp [hc, hbl, ih]
        · simp [hc, hbl, ih]
      · simp [hc, ih]

theorem processCells_get?_pass (o : Oracle) (config : CSVTranslationConfig) :
    ∀ (cells : List String) (colIndex : Nat) (s : TransState) (j : Nat),
      passThroughColumn config (colIndex + j) →
        (processCells o config cells colIndex s).1.get? j = cells.get? j := by
  intro cells
  induction cells with
  | nil =>
    intro colIndex s j hp
    simp [processCells]
  | cons cell rest ih =>
    intro colIndex s j hp
    rw [processCells]
    cases hf : config.columnMappings.find? (fun m => m.columnIndex == colIndex) with
    | none =>
      cases j with
      | zero => simp
      | succ j =>
        simp only [List.get?_cons_succ]
        exact ih (colIndex + 1) s j (by rw [show colIndex + 1 + j = colIndex + (j + 1) from by omega]; exact hp)
    | some m =>
      by_cases hc : m.shouldTranslate && optStrTruthy m.targetLanguage
      · cases j with
        | zero =>
          exfalso
          have hmem := List.mem_of_find?_eq_some hf
          have heq : m.columnIndex = colIndex := by
            have := List.find?_some hf
            simpa using this
          have := hp m hmem (by omega)
          rw [this] at hc
          simp at hc
        | succ j =>
          by_cases hbl : isBlank cell
          · simp only [hc, if_true, hbl, List.get?_cons_succ]
            exact ih (colIndex + 1) _ j (by rw [show colIndex + 1 + j = colIndex + (j + 1) from by omega]; exact hp)
          · simp only [hc, if_true, hbl, if_false, List.get?_cons_succ]
            exact ih (colIndex + 1) _ j (by rw [show colIndex + 1 + j = colIndex + (j + 1) from by omega]; exact hp)
      · cases j with
        | zero => simp [hc]
        | succ j =>
          simp only [hc, List.get?_cons_succ]
          exact ih (colIndex + 1) _ j (by rw [show colIndex + 1 + j = colIndex + (j + 1) from by omega]; exact hp)

theorem processCells_rel (o : Oracle) (config : CSVTranslationConfig)
    (row : Row) (s : TransState) :
    rowShapeAndPass config row (processCells o config row 0 s).1 :=
  ⟨processCells_length o config row 0 s,
    fun j hp => processCells_get?_pass o config row 0 s j (by simpa using hp)⟩

theorem processRowsLoop_forall₂ (o : Oracle) (f : Faults) (config : CSVTranslationConfig) :
    ∀ (batch : List Row) (bsi ri : Nat) (s : TransState),
      List.Forall₂ (rowShapeAndPass config) batch
        (processRowsLoop o f config batch bsi ri s).rows := by
  intro batch
  induction batch with
  | nil =>
    intro bsi ri s
    simp [processRowsLoop]
  | cons row rest ih =>
    intro bsi ri s
    rw [processRowsLoop]
    by_cases hfr : f.rowFault (bsi + ri)
    · simp only [hfr, if_true]
      exact List.Forall₂.cons (rowShapeAndPass_refl config row) (ih bsi (ri + 1) s)
    · simp only [hfr, if_false]
      exact List.Forall₂.cons (processCells_rel o config row s) (ih bsi (ri + 1) _)

theorem processBatchWithRecovery_rows (o : Oracle) (f : Faults) (batch : List Row)
    (batchStartIndex : Nat) (config : CSVTranslationConfig) (s : TransState) :
    (processBatchWithRecovery o f batch batchStartIndex config s).rows =
      (processRowsLoop o f config batch batchStartIndex 0 s).rows := by
  simp only [processBatchWithRecovery]
  split <;> rfl

theorem processBatchWithRecovery_state (o : Oracle) (f : Faults) (batch : List Row)
    (batchStartIndex : Nat) (config : CSVTranslationConfig) (s : TransState) :
    (processBatchWithRecovery o f batch batchStartIndex config s).state =
      (processRowsLoop o f config batch batchStartIndex 0 s).state := by
  simp only [processBatchWithRecovery]
  split <;> rfl

theorem forall₂_append_of {α β : Type} {R : α → β → Prop} :
    ∀ {l₁ : List α} {l₂ : List β} {u₁ : List α} {u₂ : List β},
      List.Forall₂ R l₁ l₂ → List.Forall₂ R u₁ u₂ →
        List.Forall₂ R (l₁ ++ u₁) (l₂ ++ u₂) := by
  intro l₁ l₂ u₁ u₂ h1 h2
  induction h1 with
  | nil => simpa using h2
  | cons hab hrest ihh => simpa using List.Forall₂.cons hab ihh

theorem batchLoop_forall₂ (o : Oracle) (f : Faults) (config : CSVTranslationConfig)
    (csvRows : List Row) (totalBatches b : Nat) (hb : 1 ≤ b) :
    ∀ (fuel i cb pr : Nat) (s : TransState), csvRows.length - i < fuel →
      List.Forall₂ (rowShapeAndPass config) (csvRows.drop i)
        (batchLoop o f config csvRows csvRows.length totalBatches b fuel i cb pr s).rows := by
  intro fuel
  induction fuel with
  | zero =>
    intro i cb pr s h
    omega
  | succ fuel ih =>
    intro i cb pr s h
    rw [batchLoop]
    by_cases hi : i < csvRows.length
    · simp only [hi, if_true]
      by_cases hfb : f.batchFault (cb + 1)
      · simp only [hfb, if_true]
        have h1 : List.Forall₂ (rowShapeAndPass config) ((csvRows.drop i).take b)
            ((csvRows.drop i).take b) :=
          List.forall₂_same.mpr (fun r _ => rowShapeAndPass_refl config r)
        have happ := forall₂_append_of h1
          (ih (i + b) (cb + 1) (pr + ((csvRows.drop i).take b).length) s (by omega))
        rw [List.drop_take_append_drop] at happ
        exact happ
      · simp only [hfb, if_false]
        have h1 := processRowsLoop_forall₂ o f config ((csvRows.drop i).take b) i 0 s
        rw [← processBatchWithRecovery_rows o f ((csvRows.drop i).take b) i config s] at h1
        have happ := forall₂_append_of h1
          (ih (i + b) (cb + 1) (pr + ((csvRows.drop i).take b).length)
            ((processBatchWithRecovery o f ((csvRows.drop i).take b) i config s).state)
            (by omega))
        rw [List.drop_take_append_drop] at happ
        exact happ
    · simp only [hi, if_false]
      rw [List.drop_eq_nil_of_le (by omega)]
      exact List.Forall₂.nil

theorem runPipeline_forall₂ (o : Oracle) (f : Faults) (headers : List String)
    (csvRows : List Row) (config : CSVTranslationConfig) :
    List.Forall₂ (rowShapeAndPass config) csvRows
      (runPipeline o f headers csvRows config).rows := by
  have hb := effectiveBatchSize_pos config
  have h := batchLoop_forall₂ o f config csvRows
    (ceilDiv csvRows.length (effectiveBatchSize config)) (effectiveBatchSize config) hb
    (csvRows.length + 1) 0 0 0 initState (by omega)
  rw [List.drop_zero] at h
  exact h

/-! ### Event lemmas (claims C2, C3, C7) -/

theorem processRowsLoop_events_progress (o : Oracle) (f : Faults)
    (config : CSVTranslationConfig) :
    ∀ (batch : List Row) (bsi ri : Nat) (s : TransState),
      ∀ e ∈ (processRowsLoop o f config batch bsi ri s).events,
        e.type = EventType.progress := by
  intro batch
  induction batch with
  | nil =>
    intro bsi ri s e he
    simp [processRowsLoop] at he
  | cons row rest ih =>
    intro bsi ri s e he
    simp only [processRowsLoop, List.mem_append] at he
    rcases he with he | he
    · by_cases h10 : ((ri + 1) % 10 == 0) = true
      · simp only [h10, if_true, List.mem_singleton] at he
        rw [he]
        rfl
      · simp only [h10, if_false] at he
        exact absurd he (List.not_mem_nil e)
    · exact ih bsi (ri + 1) _ e he

theorem processBatchWithRecovery_events_progress (o : Oracle) (f : Faults)
    (batch : List Row) (bsi : Nat) (config : CSVTranslationConfig) (s : TransState) :
    ∀ e ∈ (processBatchWithRecovery o f batch bsi config s).events,
      e.type = EventType.progress := by
  intro e he
  simp only [processBatchWithRecovery] at he
  split at he
  · simp only [List.mem_append, List.mem_singleton] at he
    rcases he with he | he
    · exact processRowsLoop_events_progress o f config batch bsi 0 s e he
    · rw [he]
      rfl
  · exact processRowsLoop_events_progress o f config batch bsi 0 s e he

theorem batchLoop_events_progress (o : Oracle) (f : Faults)
    (config : CSVTranslationConfig) (csvRows : List Row)
    (totalRows totalBatches b : Nat) :
    ∀ (fuel i cb pr : Nat) (s : TransState),
      ∀ e ∈ (batchLoop o f config csvRows totalRows totalBatches b fuel i cb pr s).events,
        e.type = EventType.progress := by
  intro fuel
  induction fuel with
  | zero =>
    intro i cb pr s e he
    simp [batchLoop] at he
  | succ fuel ih =>
    intro i cb pr s e he
    rw [batchLoop] at he
    by_cases hi : i < totalRows
    · simp only [hi, if_true] at he
      by_cases hfb : f.batchFault (cb + 1) = true
      · simp only [hfb, if_true, List.mem_cons, List.mem_append] at he
        rcases he with he | he | he | he
        · rw [he]; rfl
        · rw [he]; rfl
        · rw [he]; rfl
        · exact ih (i + b) (cb + 1) _ _ e he
      · rw [Bool.not_eq_true] at hfb
        simp only [hfb, Bool.false_eq_true, if_false, List.mem_cons, List.mem_append] at he
        rcases he with (he | he | he) | he | he
        · rw [he]; rfl
        · rw [he]; rfl
        · exact processBatchWithRecovery_events_progress o f _ i config s e he
        · rw [he]; rfl
        · exact ih (i + b) (cb + 1) _ _ e he
    · simp only [hi, if_false] at he
      simp at he

theorem run_events_helper (e0 g c : TranslationProgress) (A B : List TranslationProgress)
    (hA : ∀ e ∈ A, e.type = EventType.progress)
    (hB : ∀ e ∈ B, e.type = EventType.progress)
    (h0 : e0.type = EventType.progress) (hg : g.type = EventType.progress)
    (hc : c.type = EventType.complete) :
    ∃ cc, cc.type = EventType.complete ∧
      (e0 :: (A ++ B ++ [g, c])).filter isTerminalEvent = [cc] ∧
      (e0 :: (A ++ B ++ [g, c])).filter isErrorEvent = [] ∧
      (e0 :: (A ++ B ++ [g, c])).getLast? = some cc ∧
      e0 :: (A ++ B ++ [g, c]) ≠ [] := by
  have hterm : ∀ e : TranslationProgress, e.type = EventType.progress →
      isTerminalEvent e = false := by
    intro e he
    unfold isTerminalEvent
    rw [he]
  have herr : ∀ e : TranslationProgress, e.type = EventType.progress →
      isErrorEvent e = false := by
    intro e he
    unfold isErrorEvent
    rw [he]
  have fA : A.filter isTerminalEvent = [] :=
    List.filter_eq_nil_iff.mpr (fun a ha => by simp [hterm a (hA a ha)])
  have fB : B.filter isTerminalEvent = [] :=
    List.filter_eq_nil_iff.mpr (fun a ha => by simp [hterm a (hB a ha)])
  have gA : A.filter isErrorEvent = [] :=
    List.filter_eq_nil_iff.mpr (fun a ha => by simp [herr a (hA a ha)])
  have gB : B.filter isErrorEvent = [] :=
    List.filter_eq_nil_iff.mpr (fun a ha => by simp [herr a (hB a ha)])
  have tc : isTerminalEvent c = true := by
    unfold isTerminalEvent
    rw [hc]
  have ec : isErrorEvent c = false := by
    unfold isErrorEvent
    rw [hc]
  refine ⟨c, hc, ?_, ?_, ?_, by simp⟩
  · simp [List.filter_cons, List.filter_append, hterm _ h0, hterm _ hg, tc, fA, fB]
  · simp [List.filter_cons, List.filter_append, herr _ h0, herr _ hg, ec, gA, gB]
  · have hshape : e0 :: (A ++ B ++ [g, c]) = (e0 :: (A ++ B ++ [g])) ++ [c] := by
      simp
    rw [hshape, List.getLast?_concat]

theorem runEvents_facts (headers : List String) (totalRows : Nat) (lr : LoopResult)
    (hlr : ∀ e ∈ lr.events, e.type = EventType.progress) :
    ∃ cc, cc.type = EventType.complete ∧
      (runEvents headers totalRows lr).filter isTerminalEvent = [cc] ∧
      (runEvents headers totalRows lr).filter isErrorEvent = [] ∧
      (runEvents headers totalRows lr).getLast? = some cc ∧
      runEvents headers totalRows lr ≠ [] := by
  simp only [runEvents]
  refine run_events_helper _ _ _ _ _ hlr ?_ rfl rfl rfl
  intro e he
  split at he
  · simp only [List.mem_singleton] at he
    rw [he]
    rfl
  · simp at he

theorem runPipeline_events_facts (o : Oracle) (f : Faults) (headers : List String)
    (csvRows : List Row) (config : CSVTranslationConfig) :
    ∃ cc, cc.type = EventType.complete ∧
      (runPipeline o f headers csvRows config).events.filter isTerminalEvent = [cc] ∧
      (runPipeline o f headers csvRows config).events.filter isErrorEvent = [] ∧
      (runPipeline o f headers csvRows config).events.getLast? = some cc ∧
      (runPipeline o f headers csvRows config).events ≠ [] := by
  have h := runEvents_facts headers csvRows.length
    (batchLoop o f config csvRows csvRows.length
      (ceilDiv csvRows.length (effectiveBatchSize config)) (effectiveBatchSize config)
      (csvRows.length + 1) 0 0 0 initState)
    (fun e he =>
      batchLoop_events_progress o f config csvRows csvRows.length _ _ _ _ _ _ _ e he)
  simpa [runPipeline] using h

/-! ### Degrade lemmas (claims C2, C3) -/

theorem retryLoop_allFail (o : Oracle)
    (ho : ∀ i t tl fl, ∃ e, o i t tl fl = Except.error e)
    (text fromLang toLang : String) :
    ∀ (n : Nat) (s : TransState), (retryLoop o text fromLang toLang n s).1 = text := by
  intro n
  induction n with
  | zero =>
    intro s
    rfl
  | succ n ih =>
    intro s
    obtain ⟨e, he⟩ := ho s.calls.length text toLang fromLang
    simp only [retryLoop, callTranslator, he]
    cases n with
    | zero => simp
    | succ n =>
      simp only [Nat.succ_ne_zero, if_false]
      exact ih _

theorem translateTextWithRetry_allFail (o : Oracle)
    (ho : ∀ i t tl fl, ∃ e, o i t tl fl = Except.error e)
    (text fromLang toLang : String) (n : Nat) (s : TransState) :
    (translateTextWithRetry o text fromLang toLang n s).1 = text := by
  unfold translateTextWithRetry
  split
  · rfl
  · exact retryLoop_allFail o ho text fromLang toLang n s

theorem forall₂_get?_rel {α β : Type} {R : α → β → Prop} :
    ∀ {l₁ : List α} {l₂ : List β} {i : Nat} {a : α} {b : β},
      List.Forall₂ R l₁ l₂ → l₁.get? i = some a → l₂.get? i = some b → R a b := by
  intro l₁ l₂ i a b h
  induction h generalizing i with
  | nil =>
    intro h1 _
    simp at h1
  | cons hab hrest ihh =>
    intro h1 h2
    cases i with
    | zero =>
      rw [List.get?_cons_zero] at h1 h2
      injection h1 with h1
      injection h2 with h2
      rw [← h1, ← h2]
      exact hab
    | succ i =>
      rw [List.get?_cons_succ] at h1 h2
      exact ihh h1 h2

theorem passThrough_of_allFalse (config : CSVTranslationConfig)
    (hall : ∀ m ∈ config.columnMappings, m.shouldTranslate = false) (j : Nat) :
    passThroughColumn config j := by
  intro m hm _
  rw [hall m hm]
  rfl

theorem forall₂_eq_eq {α : Type} :
    ∀ {l₁ l₂ : List α}, List.Forall₂ (fun a b : α => a = b) l₁ l₂ → l₁ = l₂ := by
  intro l₁ l₂ h
  induction h with
  | nil => rfl
  | cons hab _ ihh => rw [hab, ihh]

/-! ### Concrete fixtures used by witnesses and counterexamples -/

/-- Deterministic translating stub (always succeeds, marks the text). -/
def oUpper : Oracle := fun _ t _ _ => Except.ok (t ++ "!")

/-- Stub failing every call with a network error. -/
def oNetFail : Oracle := fun _ _ _ _ => Except.error (AzureError.networkError "ECONNRESET")

/-- Stub failing every call (the first included) with `AuthenticationError`. -/
def oAuthFail : Oracle := fun _ _ _ _ => Except.error AzureError.authenticationFailed

/-- Demo configuration: translate column 0 to Spanish, batches of 2 rows. -/
def cfgDemo : CSVTranslationConfig :=
  { columnMappings :=
      [{ columnIndex := 0, columnName := "name", shouldTranslate := true,
         targetLanguage := some "es" }],
    sourceLanguage := "en", batchSize := 2 }

/-- Demo configuration with no column marked for translation. -/
def cfgNoTranslate : CSVTranslationConfig :=
  { columnMappings :=
      [{ columnIndex := 0, columnName := "name", shouldTranslate := false,
         targetLanguage := some "es" }],
    sourceLanguage := "en", batchSize := 2 }

/-- Demo configuration with a batch size above `MAX_BATCH_SIZE`. -/
def cfgOversized : CSVTranslationConfig :=
  { columnMappings := [], sourceLanguage := "en", batchSize := 200000 }

/-- Demo input rows. -/
def rowsDemo : List Row := [["a", "x"], ["b", "y"], ["c", "z"]]

/-! ### Claim theorems -/

/-- C1: for every run — any oracle behaviour, any injected cell, row or
batch failures, any mapping — the number of output rows equals the number
of input rows, and the output row at every index has exactly as many cells
as the input row at that index. -/
theorem c1_shape_invariant (o : Oracle) (f : Faults) (headers : List String)
    (rows : List Row) (config : CSVTranslationConfig) (i : Nat) (rIn rOut : Row)
    (hin : rows.get? i = some rIn)
    (hout : (runPipeline o f headers rows config).rows.get? i = some rOut) :
    (runPipeline o f headers rows config).rows.length = rows.length ∧
    rOut.length = rIn.length := by
  have h := runPipeline_forall₂ o f headers rows config
  exact ⟨h.length_eq.symm, (forall₂_get?_rel h hin hout).1⟩

/-- C1 witness: a concrete 3-row run with a translating stub. -/
theorem c1_shape_invariant_witness :
    rowsDemo.get? 0 = some ["a", "x"] ∧
    (runPipeline oUpper noFaults ["h1", "h2"] rowsDemo cfgDemo).rows.get? 0 =
      some ["a!", "x"] ∧
    ((runPipeline oUpper noFaults ["h1", "h2"] rowsDemo cfgDemo).rows.length =
        rowsDemo.length ∧
      (["a!", "x"] : Row).length = (["a", "x"] : Row).length) :=
  ⟨by decide, by decide,
    c1_shape_invariant oUpper noFaults ["h1", "h2"] rowsDemo cfgDemo 0
      ["a", "x"] ["a!", "x"] (by decide) (by decide)⟩

/-- C2: if every invocation of the underlying translator fails, the
per-cell retry wrapper returns the original cell text (it is a total
function, so it never raises), and the run still ends with a complete
event and emits no error event. -/
theorem c2_degrade_invariant (o : Oracle)
    (ho : ∀ i t tl fl, ∃ e, o i t tl fl = Except.error e)
    (text fromLang toLang : String) (n : Nat) (s : TransState) (f : Faults)
    (headers : List String) (rows : List Row) (config : CSVTranslationConfig) :
    (translateTextWithRetry o text fromLang toLang n s).1 = text ∧
    (∃ cc, cc.type = EventType.complete ∧
      (runPipeline o f headers rows config).events.getLast? = some cc) ∧
    (runPipeline o f headers rows config).events.filter isErrorEvent = [] := by
  obtain ⟨cc, hcc, _, herr, hlast, _⟩ := runPipeline_events_facts o f headers rows config
  exact ⟨translateTextWithRetry_allFail o ho text fromLang toLang n s,
    ⟨cc, hcc, hlast⟩, herr⟩

/-- C2 witness: the theorem applied to the always-network-failing stub. -/
theorem c2_degrade_invariant_witness :
    (translateTextWithRetry oNetFail "hello" "en" "es" 2 initState).1 = "hello" ∧
    (∃ cc, cc.type = EventType.complete ∧
      (runPipeline oNetFail noFaults ["h1", "h2"] rowsDemo cfgDemo).events.getLast? =
        some cc) ∧
    (runPipeline oNetFail noFaults ["h1", "h2"] rowsDemo cfgDemo).events.filter
      isErrorEvent = [] :=
  c2_degrade_invariant oNetFail
    (fun _ _ _ _ => ⟨AzureError.networkError "ECONNRESET", rfl⟩)
    "hello" "en" "es" 2 initState noFaults ["h1", "h2"] rowsDemo cfgDemo

/-- C3 counterexample: the translator throws `AuthenticationFailed` on its
first call (and every call); contrary to the claim, the error does not
propagate as a fatal run error: the run emits no error event, emits exactly
one complete event, and the retry wrapper swallows the error and returns
the original text. -/
theorem c3_counterexample :
    (runPipeline oAuthFail noFaults ["h1", "h2"] rowsDemo cfgDemo).events.filter
        isErrorEvent = [] ∧
    ((runPipeline oAuthFail noFaults ["h1", "h2"] rowsDemo cfgDemo).events.filter
        isCompleteEvent).length = 1 ∧
    (translateTextWithRetry oAuthFail "hello" "en" "es" 2 initState).1 = "hello" := by
  decide

/-- C3 corrected: non-retryable translator errors (authentication failure,
quota exceeded, malformed request) do not abort the run:
`translateTextWithRetry` catches them like any other failure and degrades
to the original text once the retry budget is exhausted, and the run still
terminates with a complete event and no error event. `parseErrorResponse`
does classify statuses 401, 403 and 400 as these typed errors, but the
route-level retry wrapper absorbs them. -/
theorem c3_nonretryable_absorbed (o : Oracle)
    (ho : ∀ i t tl fl, ∃ e, o i t tl fl = Except.error e ∧ isNonRetryableError e = true)
    (text fromLang toLang : String) (n : Nat) (s : TransState) (f : Faults)
    (headers : List String) (rows : List Row) (config : CSVTranslationConfig) :
    (translateTextWithRetry o text fromLang toLang n s).1 = text ∧
    (∃ cc, cc.type = EventType.complete ∧
      (runPipeline o f headers rows config).events.getLast? = some cc) ∧
    (runPipeline o f headers rows config).events.filter isErrorEvent = [] ∧
    parseErrorResponse 401 none "" = AzureError.authenticationFailed ∧
    parseErrorResponse 403 none "" = AzureError.quotaExceeded ∧
    parseErrorResponse 400 none "bad" = AzureError.badRequest "bad" := by
  have ho2 : ∀ i t tl fl, ∃ e, o i t tl fl = Except.error e := by
    intro i t tl fl
    obtain ⟨e, he, _⟩ := ho i t tl fl
    exact ⟨e, he⟩
  obtain ⟨cc, hcc, _, herr, hlast, _⟩ := runPipeline_events_facts o f headers rows config
  exact ⟨translateTextWithRetry_allFail o ho2 text fromLang toLang n s,
    ⟨cc, hcc, hlast⟩, herr, rfl, rfl, rfl⟩

/-- C3 witness for the corrected statement: the always-authentication-failing
stub. -/
theorem c3_nonretryable_absorbed_witness :
    (translateTextWithRetry oAuthFail "hello" "en" "es" 2 initState).1 = "hello" ∧
    (∃ cc, cc.type = EventType.complete ∧
      (runPipeline oAuthFail noFaults ["h1", "h2"] rowsDemo cfgDemo).events.getLast? =
        some cc) ∧
    (runPipeline oAuthFail noFaults ["h1", "h2"] rowsDemo cfgDemo).events.filter
      isErrorEvent = [] ∧
    parseErrorResponse 401 none "" = AzureError.authenticationFailed ∧
    parseErrorResponse 403 none "" = AzureError.quotaExceeded ∧
    parseErrorResponse 400 none "bad" = AzureError.badRequest "bad" :=
  c3_nonretryable_absorbed oAuthFail
    (fun _ _ _ _ => ⟨AzureError.authenticationFailed, rfl, rfl⟩)
    "hello" "en" "es" 2 initState noFaults ["h1", "h2"] rowsDemo cfgDemo

/-- C5 counterexample: in the recovery route — the variant whose pipeline
the runs use — a configured batch size of 200000, above
`MAX_BATCH_SIZE = 100000`, is used as-is for partitioning rather than
being clamped; the clamped computation of the older concurrent variant
would give 100000. -/
theorem c5_counterexample :
    effectiveBatchSize cfgOversized = 200000 ∧
    MAX_BATCH_SIZE < effectiveBatchSize cfgOversized ∧
    effectiveBatchSizeClamped cfgOversized = 100000 ∧
    effectiveBatchSize cfgOversized ≠ effectiveBatchSizeClamped cfgOversized := by
  decide

/-- C5 corrected: the recovery pipeline's effective batch size is the
configured value itself when nonzero (the default 25 when zero/unset),
with no clamping; only the older concurrent variant clamps into
`[MIN_BATCH_SIZE, MAX_BATCH_SIZE]`. -/
theorem c5_batch_size_unclamped (config : CSVTranslationConfig) :
    (0 < config.batchSize → effectiveBatchSize config = config.batchSize) ∧
    (config.batchSize = 0 → effectiveBatchSize config = DEFAULT_BATCH_SIZE) ∧
    MIN_BATCH_SIZE ≤ effectiveBatchSizeClamped config ∧
    effectiveBatchSizeClamped config ≤ MAX_BATCH_SIZE := by
  unfold effectiveBatchSize effectiveBatchSizeClamped
  unfold DEFAULT_BATCH_SIZE MIN_BATCH_SIZE MAX_BATCH_SIZE
  refine ⟨?_, ?_, ?_, ?_⟩
  · intro h
    rw [if_neg (by omega)]
  · intro h
    rw [if_pos h]
  · split <;> omega
  · split <;> omega

/-- C5 witness for the corrected statement, at the oversized configuration. -/
theorem c5_batch_size_unclamped_witness :
    effectiveBatchSize cfgOversized = cfgOversized.batchSize ∧
    MIN_BATCH_SIZE ≤ effectiveBatchSizeClamped cfgOversized ∧
    effectiveBatchSizeClamped cfgOversized ≤ MAX_BATCH_SIZE :=
  ⟨(c5_batch_size_unclamped cfgOversized).1 (by decide),
    (c5_batch_size_unclamped cfgOversized).2.2.1,
    (c5_batch_size_unclamped cfgOversized).2.2.2⟩

/-- C6: for every run, a cell in a column with no translate-marked mapping
(with a set target language) is passed through exactly; when every mapping
has `shouldTranslate = false` the whole output row matrix equals the input
matrix. -/
theorem c6_pass_through (o : Oracle) (f : Faults) (headers : List String)
    (rows : List Row) (config : CSVTranslationConfig) :
    (∀ i rIn rOut j, rows.get? i = some rIn →
      (runPipeline o f headers rows config).rows.get? i = some rOut →
      passThroughColumn config j → rOut.get? j = rIn.get? j) ∧
    ((∀ m ∈ config.columnMappings, m.shouldTranslate = false) →
      (runPipeline o f headers rows config).rows = rows) := by
  have h := runPipeline_forall₂ o f headers rows config
  constructor
  · intro i rIn rOut j hin hout hp
    exact (forall₂_get?_rel h hin hout).2 j hp
  · intro hall
    have h2 : List.Forall₂ (fun a b : Row => a = b) rows
        (runPipeline o f headers rows config).rows :=
      List.Forall₂.imp
        (fun a b hab =>
          List.ext_get?_iff.mpr
            (fun j => (hab.2 j (passThrough_of_allFalse config hall j)).symm))
        h
    exact (forall₂_eq_eq h2).symm

/-- C6 witness: column 1 of the demo run is passed through, and the run
with no translate-marked mapping returns the input matrix unchanged. -/
theorem c6_pass_through_witness :
    passThroughColumn cfgDemo 1 ∧
    rowsDemo.get? 0 = some ["a", "x"] ∧
    (runPipeline oUpper noFaults ["h1", "h2"] rowsDemo cfgDemo).rows.get? 0 =
      some ["a!", "x"] ∧
    (["a!", "x"] : Row).get? 1 = (["a", "x"] : Row).get? 1 ∧
    (runPipeline oUpper noFaults ["h1", "h2"] rowsDemo cfgNoTranslate).rows = rowsDemo :=
  ⟨by unfold passThroughColumn; decide, by decide, by decide,
    (c6_pass_through oUpper noFaults ["h1", "h2"] rowsDemo cfgDemo).1 0
      ["a", "x"] ["a!", "x"] 1 (by decide) (by decide)
      (by unfold passThroughColumn; decide),
    (c6_pass_through oUpper noFaults ["h1", "h2"] rowsDemo cfgNoTranslate).2 (by decide)⟩

/-- C7: every run emits exactly one terminal event (`complete` or `error`),
and the terminal event is the last event of the run. -/
theorem c7_terminal_uniqueness (parsed : Except String (List String × List Row))
    (o : Oracle) (f : Faults) (config : CSVTranslationConfig) :
    processTranslationRequest parsed o f config ≠ [] ∧
    ((processTranslationRequest parsed o f config).filter isTerminalEvent).length = 1 ∧
    ∀ e, (processTranslationRequest parsed o f config).getLast? = some e →
      isTerminalEvent e = true := by
  cases parsed with
  | error msg =>
    refine ⟨by simp [processTranslationRequest], rfl, ?_⟩
    intro e he
    simp only [processTranslationRequest, List.getLast?_singleton] at he
    injection he with he
    rw [← he]
    rfl
  | ok hr =>
    obtain ⟨cc, hcc, hterm, _, hlast, hne⟩ := runPipeline_events_facts o f hr.1 hr.2 config
    refine ⟨?_, ?_, ?_⟩
    · simpa [processTranslationRequest] using hne
    · simp only [processTranslationRequest]
      rw [hterm]
      rfl
    · intro e he
      simp only [processTranslationRequest] at he
      rw [hlast] at he
      injection he with he
      rw [← he]
      unfold isTerminalEvent
      rw [hcc]

/-- C7 witness: a concrete successful run. -/
theorem c7_terminal_uniqueness_witness :
    processTranslationRequest (Except.ok (["h1", "h2"], rowsDemo)) oUpper noFaults
        cfgDemo ≠ [] ∧
    ((processTranslationRequest (Except.ok (["h1", "h2"], rowsDemo)) oUpper noFaults
        cfgDemo).filter isTerminalEvent).length = 1 ∧
    ∀ e, (processTranslationRequest (Except.ok (["h1", "h2"], rowsDemo)) oUpper noFaults
        cfgDemo).getLast? = some e → isTerminalEvent e = true :=
  c7_terminal_uniqueness (Except.ok (["h1", "h2"], rowsDemo)) oUpper noFaults cfgDemo

/-- C8: a blank (empty or whitespace-only) cell short-circuits: the retry
wrapper returns the text unchanged with an unchanged call log (no
translator invocation), and the column loop pushes the cell unchanged,
again with no translator invocation for that cell. -/
theorem c8_blank_short_circuit (o : Oracle) (config : CSVTranslationConfig)
    (cell : String) (rest : List String) (colIndex : Nat) (s : TransState)
    (fromLang toLang : String) (n : Nat) (hblank : isBlank cell = true) :
    translateTextWithRetry o cell fromLang toLang n s = (cell, s) ∧
    processCells o config (cell :: rest) colIndex s =
      (cell :: (processCells o config rest (colIndex + 1) s).1,
        (processCells o config rest (colIndex + 1) s).2) := by
  constructor
  · unfold translateTextWithRetry
    rw [if_pos hblank]
  · rw [processCells]
    cases hf : config.columnMappings.find? (fun m => m.columnIndex == colIndex) with
    | none => rfl
    | some m =>
      by_cases hc : (m.shouldTranslate && optStrTruthy m.targetLanguage) = true
      · simp only [hc, if_true, hblank]
      · rw [Bool.not_eq_true] at hc
        simp only [hc, Bool.false_eq_true, if_false]

/-! ### Character-limit batching (claim C9) -/

theorem sumLens_append_singleton (l : List String) (t : String) :
    sumLens (l ++ [t]) = sumLens l + t.length := by
  simp [sumLens]

theorem createBatchesLoop_spec (limit : Nat) :
    ∀ (texts currentBatch : List String) (count : Nat),
      count = sumLens currentBatch → sumLens currentBatch ≤ limit →
      (createBatchesLoop limit texts currentBatch count).flatten = currentBatch ++ texts ∧
      ∀ b ∈ createBatchesLoop limit texts currentBatch count,
        sumLens b ≤ limit ∨ ∃ t, b = [t] ∧ limit < t.length := by
  intro texts
  induction texts with
  | nil =>
    intro cb count hc hle
    rw [createBatchesLoop]
    by_cases h : cb.length > 0
    · simp only [h, if_true]
      refine ⟨by simp, ?_⟩
      intro b hb
      simp only [List.mem_singleton] at hb
      rw [hb]
      exact Or.inl hle
    · simp only [h, if_false]
      have hnil : cb = [] := by
        cases cb with
        | nil => rfl
        | cons x xs => simp at h
      refine ⟨by simp [hnil], ?_⟩
      intro b hb
      simp at hb
  | cons text rest ih =>
    intro cb count hc hle
    rw [createBatchesLoop]
    by_cases h1 : limit < text.length
    · by_cases h2 : cb.length > 0
      · simp only [h1, if_true, h2]
        obtain ⟨hj, hbd⟩ := ih [] 0 (by simp [sumLens]) (by simp [sumLens])
        refine ⟨by simp [hj], ?_⟩
        intro b hb
        simp only [List.mem_cons] at hb
        rcases hb with hb | hb | hb
        · exact Or.inl (hb ▸ hle)
        · exact Or.inr ⟨text, hb, h1⟩
        · exact hbd b hb
      · simp only [h1, if_true, h2, if_false]
        have hnil : cb = [] := by
          cases cb with
          | nil => rfl
          | cons x xs => simp at h2
        obtain ⟨hj, hbd⟩ := ih [] 0 (by simp [sumLens]) (by simp [sumLens])
        refine ⟨by simp [hj, hnil], ?_⟩
        intro b hb
        simp only [List.mem_cons] at hb
        rcases hb with hb | hb
        · exact Or.inr ⟨text, hb, h1⟩
        · exact hbd b hb
    · by_cases h2 : limit < count + text.length ∧ cb.length > 0
      · simp only [h1, if_false, h2, and_self, if_true]
        obtain ⟨hj, hbd⟩ := ih [text] text.length (by simp [sumLens])
          (by simp [sumLens]; omega)
        refine ⟨by simp [hj], ?_⟩
        intro b hb
        simp only [List.mem_cons] at hb
        rcases hb with hb | hb
        · exact Or.inl (hb ▸ hle)
        · exact hbd b hb
      · simp only [h1, if_false, h2, if_true]
        have hle2 : sumLens (cb ++ [text]) ≤ limit := by
          rw [sumLens_append_singleton]
          rcases Nat.eq_zero_or_pos cb.length with hz | hpos
          · have hnil : cb = [] := List.length_eq_zero.mp hz
            have : sumLens cb = 0 := by rw [hnil]; rfl
            omega
          · have : ¬limit < count + text.length := fun hcon => h2 ⟨hcon, hpos⟩
            omega
        obtain ⟨hj, hbd⟩ := ih (cb ++ [text]) (count + text.length)
          (by rw [sumLens_append_singleton, hc]) hle2
        refine ⟨by simp [hj], ?_⟩
        intro b hb
        exact hbd b hb

/-- C9: `createBatches` loses, duplicates and reorders nothing — the
concatenation of its batches in order is exactly the input list; every
batch holding two or more texts has a total character count of at most the
limit; and a single text longer than the limit is alone in its own batch. -/
theorem c9_createBatches_invariant (limit : Nat) (texts : List String)
    (b : List String) (hb : b ∈ createBatches limit texts) :
    (createBatches limit texts).flatten = texts ∧
    (2 ≤ b.length → sumLens b ≤ limit) ∧
    (∀ t ∈ b, limit < t.length → b = [t]) := by
  obtain ⟨hj, hbd⟩ := createBatchesLoop_spec limit texts [] 0 (by simp [sumLens])
    (by simp [sumLens])
  refine ⟨by simpa using hj, ?_, ?_⟩
  · intro h2
    rcases hbd b hb with h | ⟨t, ht, _⟩
    · exact h
    · rw [ht] at h2
      simp at h2
  · intro t htb hlt
    rcases hbd b hb with h | ⟨u, hu, _⟩
    · exfalso
      have hmem : t.length ∈ b.map String.length := List.mem_map_of_mem _ htb
      have hsum : t.length ≤ sumLens b :=
        List.single_le_sum (fun x _ => Nat.zero_le x) t.length hmem
      omega
    · rw [hu] at htb
      simp only [List.mem_singleton] at htb
      rw [htb]
      exact hu

/-- C9 witness: the theorem applied at limit 5 with an oversized text. -/
theorem c9_createBatches_invariant_witness :
    ["ab", "abc"] ∈ createBatches 5 ["ab", "abc", "x", "toolong!", "y"] ∧
    ((createBatches 5 ["ab", "abc", "x", "toolong!", "y"]).flatten =
        ["ab", "abc", "x", "toolong!", "y"] ∧
      (2 ≤ (["ab", "abc"] : List String).length → sumLens ["ab", "abc"] ≤ 5) ∧
      (∀ t ∈ (["ab", "abc"] : List String), 5 < t.length → ["ab", "abc"] = [t])) :=
  ⟨by decide,
    c9_createBatches_invariant 5 ["ab", "abc", "x", "toolong!", "y"] ["ab", "abc"]
      (by decide)⟩

/-- C8 witness: a whitespace-only cell in the demo configuration. -/
theorem c8_blank_short_circuit_witness :
    isBlank "  " = true ∧
    (translateTextWithRetry oUpper "  " "en" "es" 2 initState = ("  ", initState) ∧
      processCells oUpper cfgDemo ("  " :: ["x"]) 0 initState =
        ("  " :: (processCells oUpper cfgDemo ["x"] 1 initState).1,
          (processCells oUpper cfgDemo ["x"] 1 initState).2)) :=
  ⟨by decide,
    c8_blank_short_circuit oUpper cfgDemo "  " ["x"] 0 initState "en" "es" 2 (by decide)⟩

end CsvTranslator
